import Mathlib

/-!
Verification development for the datasource layer of the repository
(manifest: src/rust/datafusion/src/datasource/mod.rs).

The repository ships only the module manifest; the submodules it names
(csv, datasource, memory, parquet) are not present.  Their behaviour is
therefore modelled from the specification: each definition below whose
doc comment starts with `Modelled from the spec:` embeds the contract the
spec states for the missing submodule.  The manifest itself (module list,
cfg gating, re-exports) is embedded directly from the source file.
-/

deriving instance DecidableEq for Except

namespace Datasource

/-- Modelled from the spec: the column data types named by the CSV
type-widening rule (integer → float → string).  Float values are carried
as their source lexeme; no floating-point arithmetic is modelled. -/
inductive DataType
  | int
  | float
  | str
deriving DecidableEq, Repr

/-- Modelled from the spec: one schema entry — (column name, data type,
nullability). -/
structure Field where
  name : String
  dtype : DataType
  nullable : Bool
deriving DecidableEq, Repr

/-- Modelled from the spec: a Schema is an ordered sequence of fields. -/
abbrev Schema := List Field

/-- Modelled from the spec: a cell value of one of the supported types. -/
inductive Value
  | vInt (i : Int)
  | vFloat (lexeme : String)
  | vStr (s : String)
  | vNull
deriving DecidableEq, Repr

/-- Whether a value is admissible in a column of the given type
(null is admissible everywhere; nullability is tracked by the schema). -/
def Value.conforms : Value → DataType → Bool
  | .vInt _, .int => true
  | .vFloat _, .float => true
  | .vStr _, .str => true
  | .vNull, _ => true
  | _, _ => false

/-- Modelled from the spec: a Batch is an ordered sequence of columns,
each a typed fixed-length array; all columns share one row count. -/
structure Batch where
  schema : Schema
  numRows : Nat
  columns : List (List Value)
deriving DecidableEq

/-- Structural well-formedness of a batch: one column per schema field,
every column of length `numRows`. -/
def Batch.wf (b : Batch) : Prop :=
  b.columns.length = b.schema.length ∧ ∀ c ∈ b.columns, c.length = b.numRows

instance (b : Batch) : Decidable b.wf := by
  unfold Batch.wf
  exact inferInstance

/-- Every value of every column conforms to the type of the
corresponding schema field. -/
def Batch.wellTypedB (b : Batch) : Bool :=
  (b.columns.zip b.schema).all fun p => p.1.all fun v => v.conforms p.2.dtype

/-- Modelled from the spec: a Projection is an ordered set of column
indices into the full schema, or an all-columns sentinel. -/
inductive Projection
  | all
  | cols (idxs : List Nat)
deriving DecidableEq, Repr

/-- Modelled from the spec: the error taxonomy of the datasource layer. -/
inductive DSError
  | schemaUnavailable
  | invalidProjection
  | sourceUnavailable
  | decodeError (row : Nat)
deriving DecidableEq, Repr

/-- Modelled from the spec: validating a projection against a schema —
out-of-range or duplicate indices are rejected with `InvalidProjection`;
the all-columns sentinel resolves to every index in order. -/
def validateProjection (schema : Schema) : Projection → Except DSError (List Nat)
  | .all => .ok (List.range (List.length schema))
  | .cols idxs =>
    if idxs.all (fun i => decide (i < List.length schema)) && List.Nodup idxs then
      .ok idxs
    else
      .error .invalidProjection

/-- The schema obtained by selecting the projected fields, in projection
order. -/
def projectSchema (schema : Schema) (idxs : List Nat) : Schema :=
  idxs.map fun i => List.getD schema i ⟨"", .str, false⟩

/-- Modelled from the spec: the shared projection wrapper applied to one
batch — keeps only the selected columns, in the selected order,
preserving the row count. -/
def projectBatch (idxs : List Nat) (b : Batch) : Batch :=
  { schema := projectSchema b.schema idxs
    numRows := b.numRows
    columns := idxs.map fun i => b.columns.getD i [] }

/-- Modelled from the spec: the result of one `next()` call on a batch
iterator — exactly one batch, end-of-stream, or a terminal error. -/
inductive NextResult
  | batch (b : Batch)
  | endOfStream
  | failed (e : DSError)
deriving DecidableEq

/-- Modelled from the spec: a ScanResult owns the projected schema and
one batch iterator per partition. -/
structure ScanResult (ι : Type) where
  schema : Schema
  partitions : List ι
deriving DecidableEq

/-- Sizes of `p` roughly-equal chunks: base size `q` each, the first `r`
chunks getting one extra element. -/
def chunkSizesAux : Nat → Nat → Nat → List Nat
  | 0, _, _ => []
  | p + 1, q, 0 => q :: chunkSizesAux p q 0
  | p + 1, q, r + 1 => (q + 1) :: chunkSizesAux p q r

/-- Sizes of `p` roughly-equal chunks of `m` elements. -/
def chunkSizes (m p : Nat) : List Nat :=
  chunkSizesAux p (m / p) (m % p)

/-- Split a list into consecutive chunks of the given sizes. -/
def splitSizes : List α → List Nat → List (List α)
  | _, [] => []
  | xs, sz :: rest => xs.take sz :: splitSizes (xs.drop sz) rest

/-- Modelled from the spec: partition a sequence of atomic units into up
to `n` roughly-equal, disjoint, contiguous chunks — never more chunks
than units, a request of 0 treated as 1. -/
def splitChunks (n : Nat) (xs : List α) : List (List α) :=
  let p := min (max n 1) xs.length
  splitSizes xs (chunkSizes xs.length p)

/-- Modelled from the spec: the in-memory batch iterator — a cursor over
a fixed list of batches, yielding them in order. -/
structure MemBatchIterator where
  schema : Schema
  batches : List Batch
deriving DecidableEq

/-- Modelled from the spec: one `next()` call on the in-memory iterator:
yields the next batch, or signals end-of-stream once exhausted. -/
def MemBatchIterator.next (it : MemBatchIterator) : NextResult × MemBatchIterator :=
  match it.batches with
  | [] => (.endOfStream, it)
  | b :: rest => (.batch b, { it with batches := rest })

/-- Modelled from the spec: the in-memory table provider — a fixed,
pre-materialized set of batches and their schema, supplied at
construction. -/
structure MemTable where
  schema : Schema
  batches : List Batch
deriving DecidableEq

/-- Modelled from the spec: `MemTable::scan` — validates the projection
(InvalidProjection on out-of-range or duplicate indices), partitions the
batch sequence into contiguous sub-ranges, and applies the projection to
every batch of every partition. -/
def MemTable.scan (t : MemTable) (proj : Projection) (n : Nat) :
    Except DSError (ScanResult MemBatchIterator) :=
  match validateProjection t.schema proj with
  | .error e => .error e
  | .ok idxs =>
    let outSchema := projectSchema t.schema idxs
    .ok { schema := outSchema
          partitions := (splitChunks n t.batches).map fun bs =>
            { schema := outSchema, batches := bs.map (projectBatch idxs) } }

/-- Parse a non-empty run of decimal digits. -/
def parseDigitList (cs : List Char) : Option Nat :=
  if cs ≠ [] ∧ cs.all Char.isDigit then
    some (cs.foldl (fun a c => a * 10 + (c.toNat - 48)) 0)
  else
    none

/-- Parse a decimal integer with an optional leading minus sign. -/
def parseIntStr (s : String) : Option Int :=
  match s.toList with
  | [] => none
  | c :: rest =>
    if c = '-' then (parseDigitList rest).map fun m => -(m : Int)
    else (parseDigitList (c :: rest)).map fun m => (m : Int)

/-- Modelled from the spec: parsing one CSV field to the inferred
column type; an unparsable value is a per-row decoding failure. -/
def decodeField : DataType → String → Option Value
  | .int, s => (parseIntStr s).map .vInt
  | .float, s => some (.vFloat s)
  | .str, s => some (.vStr s)

/-- Modelled from the spec: decoding one CSV row against the schema — a
wrong column count or an unparsable value fails the row. -/
def decodeFields : List Field → List String → Option (List Value)
  | [], [] => some []
  | f :: fs, s :: ss => do
    let v ← decodeField f.dtype s
    let vs ← decodeFields fs ss
    pure (v :: vs)
  | [], _ :: _ => none
  | _ :: _, [] => none

/-- Columnar transposition of decoded rows. -/
def transposeRows (ncols : Nat) (rows : List (List Value)) : List (List Value) :=
  (List.range ncols).map fun i => rows.map fun r => r.getD i .vNull

/-- Assemble decoded rows into a batch over the given schema. -/
def rowsToBatch (schema : Schema) (rows : List (List Value)) : Batch :=
  { schema := schema, numRows := rows.length, columns := transposeRows (List.length schema) rows }

/-- Modelled from the spec: the CSV batch iterator — owns its partition
rows, the advertised schema, a configured target batch size, and a
terminal failed flag. -/
structure CsvBatchIterator where
  schema : Schema
  batchSize : Nat
  rows : List (List String)
  rowIndex : Nat
  failed : Bool
deriving DecidableEq

/-- Decode up to `k` further rows, stopping early at the first malformed
row (which stays at the head of the remainder). -/
def csvDecodeChunk (schema : Schema) : Nat → List (List String) →
    List (List Value) × List (List String)
  | 0, rows => ([], rows)
  | _ + 1, [] => ([], [])
  | k + 1, r :: rest =>
    match decodeFields schema r with
    | none => ([], r :: rest)
    | some vals =>
      let p := csvDecodeChunk schema k rest
      (vals :: p.1, p.2)

/-- Modelled from the spec: one `next()` call on the CSV iterator —
fail-fast per row: a malformed row transitions the iterator to `Failed`
(terminal, the error is reported with the row context) rather than being
skipped or padded; otherwise up to a target batch size of rows are
decoded into one batch, the final batch possibly smaller. -/
def CsvBatchIterator.next (it : CsvBatchIterator) : NextResult × CsvBatchIterator :=
  if it.failed then (.failed (.decodeError it.rowIndex), it)
  else
    match it.rows with
    | [] => (.endOfStream, it)
    | r :: rest =>
      match decodeFields it.schema r with
      | none => (.failed (.decodeError it.rowIndex), { it with failed := true })
      | some v0 =>
        let p := csvDecodeChunk it.schema (max it.batchSize 1 - 1) rest
        (.batch (rowsToBatch it.schema (v0 :: p.1)),
         { it with rows := p.2, rowIndex := it.rowIndex + (v0 :: p.1).length })

/-- Modelled from the spec: the raw contents of a readable CSV file — a
header line of column names and the data rows, already split into
fields per standard CSV quoting rules (quoting itself is an external
lexing concern not modelled here). -/
structure CsvData where
  header : List String
  rows : List (List String)
deriving DecidableEq

/-- Modelled from the spec: the type a single CSV lexeme would be
inferred at — integer, else float, else string. -/
def inferValueType (s : String) : DataType :=
  if (parseIntStr s).isSome then .int
  else if (s.toList.all fun c => c.isDigit || c == '.' || c == '-') &&
          s.toList.any Char.isDigit then .float
  else .str

/-- Modelled from the spec: type widening on conflict, in the order
integer → float → string. -/
def widen : DataType → DataType → DataType
  | .str, _ => .str
  | _, .str => .str
  | .float, _ => .float
  | _, .float => .float
  | .int, .int => .int

/-- Modelled from the spec: infer one column type from a bounded sample
of leading rows, widening on conflict; an empty sample defaults to
string. -/
def inferColumnType (samples : List String) : DataType :=
  match samples with
  | [] => .str
  | s :: rest => rest.foldl (fun acc x => widen acc (inferValueType x)) (inferValueType s)

/-- Modelled from the spec: CSV schema inference — column names from the
header line, each type inferred from a bounded sample of leading data
rows. -/
def inferSchema (bound : Nat) (d : CsvData) : Schema :=
  (List.range d.header.length).map fun i =>
    ⟨d.header.getD i "", inferColumnType ((d.rows.take bound).map fun r => r.getD i ""), false⟩

/-- Modelled from the spec: the CSV table provider — a file location
(present or unreadable), the configured batch size, and the bound on
rows sampled for schema inference. -/
structure CsvFile where
  file : Option CsvData
  batchSize : Nat
  inferBound : Nat
deriving DecidableEq

/-- Modelled from the spec: `CsvFile::schema` — infers the schema from
header and sampled rows; fails with `SchemaUnavailable` when the source
cannot be introspected. -/
def CsvFile.schema (f : CsvFile) : Except DSError Schema :=
  match f.file with
  | none => .error .schemaUnavailable
  | some d => .ok (inferSchema f.inferBound d)

/-- Modelled from the spec: the shared projection wrapper composed
around any batch iterator. -/
structure ProjectedIterator (ι : Type) where
  idxs : List Nat
  inner : ι
deriving DecidableEq

/-- Modelled from the spec: one `next()` call on the projection wrapper
— batches of the inner iterator are narrowed to the selected columns in
the selected order; end-of-stream and errors pass through. -/
def ProjectedIterator.next (step : ι → NextResult × ι) (it : ProjectedIterator ι) :
    NextResult × ProjectedIterator ι :=
  match step it.inner with
  | (.batch b, i2) => (.batch (projectBatch it.idxs b), { it with inner := i2 })
  | (.endOfStream, i2) => (.endOfStream, { it with inner := i2 })
  | (.failed e, i2) => (.failed e, { it with inner := i2 })

/-- Modelled from the spec: `CsvFile::scan` — fails with
`SourceUnavailable` when the file cannot be opened, validates the
projection against the inferred schema, splits the file into row-aligned
partitions, and serves each partition through a CSV iterator composed
with the projection wrapper. -/
def CsvFile.scan (f : CsvFile) (proj : Projection) (n : Nat) :
    Except DSError (ScanResult (ProjectedIterator CsvBatchIterator)) :=
  match f.file with
  | none => .error .sourceUnavailable
  | some d =>
    let schema := inferSchema f.inferBound d
    match validateProjection schema proj with
    | .error e => .error e
    | .ok idxs =>
      .ok { schema := projectSchema schema idxs
            partitions := (splitChunks n d.rows).map fun rs =>
              { idxs := idxs
                inner := { schema := schema, batchSize := f.batchSize,
                           rows := rs, rowIndex := 0, failed := false } } }

/-- Modelled from the spec: one worker pulling from the iterator of
partition `i` of a scan session — only the iterator state of that
partition is touched. -/
def stepPartition (step : σ → NextResult × σ) (its : List σ) (i : Nat) :
    NextResult × List σ :=
  match its[i]? with
  | none => (.endOfStream, its)
  | some it =>
    let p := step it
    (p.1, its.set i p.2)

/-- Compilation targets distinguished by the cfg gates of the manifest. -/
inductive TargetArch
  | wasm32
  | other
deriving DecidableEq, Repr

/-- A `pub mod` item of the manifest, with its cfg gate. -/
structure ModDecl where
  name : String
  cfgNotWasm32 : Bool
deriving DecidableEq, Repr

/-- A `pub use self::module::{names}` item of the manifest, with its cfg
gate. -/
structure UseDecl where
  module : String
  names : List String
  cfgNotWasm32 : Bool
deriving DecidableEq, Repr

/-- Whether an item under the given cfg gate is compiled for the target:
a `cfg(not(target_arch = wasm32))` item is dropped on wasm32. -/
def itemActive : TargetArch → Bool → Bool
  | _, false => true
  | .wasm32, true => false
  | .other, true => true

/-- The `pub mod` items of src/rust/datafusion/src/datasource/mod.rs, in
source order. -/
def datasourceModDecls : List ModDecl :=
  [⟨"csv", true⟩, ⟨"datasource", false⟩, ⟨"memory", false⟩, ⟨"parquet", true⟩]

/-- The `pub use` items of src/rust/datafusion/src/datasource/mod.rs, in
source order. -/
def datasourceUseDecls : List UseDecl :=
  [⟨"csv", ["CsvBatchIterator", "CsvFile"], true⟩,
   ⟨"datasource", ["ScanResult", "TableProvider"], false⟩,
   ⟨"memory", ["MemBatchIterator", "MemTable"], false⟩]

/-- The items the manifest file defines itself, besides modules and
re-exports: there are none. -/
def datasourceOwnDefs : List String := []

/-- The submodules the manifest exposes on a target. -/
def exportedModules (t : TargetArch) : List String :=
  (datasourceModDecls.filter fun m => itemActive t m.cfgNotWasm32).map ModDecl.name

/-- The re-exported names the manifest exposes on a target. -/
def exportedNames (t : TargetArch) : List String :=
  ((datasourceUseDecls.filter fun u => itemActive t u.cfgNotWasm32).map UseDecl.names).flatten

/-- The defining submodule a re-exported name resolves to, per the
`use` items of the manifest. -/
def reExportTarget (n : String) : Option String :=
  (datasourceUseDecls.find? fun u => u.names.contains n).map UseDecl.module

/-- Resolution of a path relative to the datasource module: a single
name goes through the re-exports, a module-qualified name goes to the
item of that submodule.  An item is identified by (defining module,
name). -/
def resolve : List String → Option (String × String)
  | [n] => (reExportTarget n).map fun m => (m, n)
  | [m, n] =>
    if (datasourceModDecls.map ModDecl.name).contains m then some (m, n) else none
  | _ => none

/-- The public surface the spec describes for the manifest: the four
submodules and the six re-exported names with their defining modules. -/
def specSurfaceModules : List String := ["csv", "datasource", "memory", "parquet"]

/-- The six re-exported names the spec lists, with the submodule the
spec attributes each to. -/
def specSurfaceNames : List (String × String) :=
  [("CsvBatchIterator", "csv"), ("CsvFile", "csv"),
   ("ScanResult", "datasource"), ("TableProvider", "datasource"),
   ("MemBatchIterator", "memory"), ("MemTable", "memory")]

/-- The end-of-stream contract of the batch-iterator state machine: a
`next()` that signals end-of-stream leaves the iterator unchanged, and
every subsequent `next()` signals end-of-stream again. -/
def eosStable {σ : Type} (step : σ → NextResult × σ) : Prop :=
  ∀ s s', step s = (NextResult.endOfStream, s') →
    s' = s ∧ step s' = (NextResult.endOfStream, s')

/-- The non-empty-batch contract: a `next()` never yields a batch with
zero rows. -/
def yieldsNonempty {σ : Type} (step : σ → NextResult × σ) : Prop :=
  ∀ s b s', step s = (NextResult.batch b, s') → 0 < b.numRows

/-! Fixtures used by witnesses and counterexamples -/

/-- A three-column schema fixture. -/
def sampleSchema3 : Schema :=
  [⟨"a", .int, false⟩, ⟨"b", .int, false⟩, ⟨"c", .str, false⟩]

/-- A two-column schema fixture. -/
def sampleSchema2 : Schema :=
  [⟨"x", .int, false⟩, ⟨"y", .str, false⟩]

/-- A first sample batch over `sampleSchema2`. -/
def sampleBatchA : Batch :=
  { schema := sampleSchema2, numRows := 2
    columns := [[.vInt 1, .vInt 2], [.vStr "p", .vStr "q"]] }

/-- A second sample batch over `sampleSchema2`. -/
def sampleBatchB : Batch :=
  { schema := sampleSchema2, numRows := 1
    columns := [[.vInt 3], [.vStr "r"]] }

/-- An in-memory table fixture with two batches. -/
def sampleMem : MemTable :=
  { schema := sampleSchema2, batches := [sampleBatchA, sampleBatchB] }

/-- An in-memory table fixture with no batches. -/
def emptyMem : MemTable :=
  { schema := sampleSchema2, batches := [] }

/-- The number of iterators a MemTable scan returns, when it succeeds. -/
def memScanPartitionCount (t : MemTable) (proj : Projection) (n : Nat) : Option Nat :=
  match t.scan proj n with
  | .ok r => some (List.length r.partitions)
  | .error _ => none

/-- A CSV iterator fixture over a 3-column schema whose second row has
only 2 fields. -/
def sampleCsvIter : CsvBatchIterator :=
  { schema := sampleSchema3, batchSize := 4
    rows := [["1", "2", "u"], ["3", "4"]], rowIndex := 0, failed := false }

/-- An in-memory table fixture over the three-column schema. -/
def sampleMem3 : MemTable :=
  { schema := sampleSchema3, batches := [] }

/-- A readable CSV file fixture with three columns. -/
def sampleCsvFile : CsvFile :=
  { file := some { header := ["a", "b", "c"], rows := [["1", "2", "u"], ["3", "4", "v"]] }
    batchSize := 4, inferBound := 10 }

/-- A CSV provider fixture whose backing file cannot be opened. -/
def missingCsvFile : CsvFile :=
  { file := none, batchSize := 1, inferBound := 1 }

/-- The scan result of the sample in-memory table under projection [1]
with one partition. -/
def sampleScanR : ScanResult MemBatchIterator :=
  match sampleMem.scan (.cols [1]) 1 with
  | .ok r => r
  | .error _ => { schema := [], partitions := [] }

/-- The scan result of the sample in-memory table under the all-columns
projection with one partition. -/
def sampleScanAll : ScanResult MemBatchIterator :=
  match sampleMem.scan .all 1 with
  | .ok r => r
  | .error _ => { schema := [], partitions := [] }

/-- The scan result of the sample CSV file under the all-columns
projection with one partition. -/
def sampleCsvScanR : ScanResult (ProjectedIterator CsvBatchIterator) :=
  match sampleCsvFile.scan .all 1 with
  | .ok r => r
  | .error _ => { schema := [], partitions := [] }

/-- A second CSV iterator fixture, used as a sibling partition. -/
def sampleCsvIterB : CsvBatchIterator :=
  { schema := sampleSchema3, batchSize := 4
    rows := [["7", "8", "w"]], rowIndex := 0, failed := false }

end Datasource

namespace Datasource

/-! Partition-splitting lemmas -/

theorem chunkSizesAux_length (p q r : Nat) : (chunkSizesAux p q r).length = p := by
  induction p generalizing r with
  | zero => simp [chunkSizesAux]
  | succ p ih =>
    cases r with
    | zero => simp [chunkSizesAux, ih]
    | succ r => simp [chunkSizesAux, ih]

theorem chunkSizesAux_sum (p q r : Nat) (h : r ≤ p) :
    (chunkSizesAux p q r).sum = p * q + r := by
  induction p generalizing r with
  | zero =>
    have : r = 0 := Nat.le_zero.mp h
    simp [this, chunkSizesAux]
  | succ p ih =>
    cases r with
    | zero =>
      have h0 : (0 : Nat) ≤ p := Nat.zero_le p
      simp [chunkSizesAux, ih 0 h0, Nat.succ_mul, Nat.add_comm]
    | succ r =>
      have hr : r ≤ p := Nat.lt_succ_iff.mp (Nat.lt_of_lt_of_le (Nat.lt_succ_self r) h)
      simp [chunkSizesAux, ih r hr, Nat.succ_mul]
      omega

theorem chunkSizes_sum (m p : Nat) (hp : p ≠ 0) : (chunkSizes m p).sum = m := by
  unfold chunkSizes
  have hlt : m % p < p := Nat.mod_lt m (Nat.pos_of_ne_zero hp)
  rw [chunkSizesAux_sum p (m / p) (m % p) (Nat.le_of_lt hlt)]
  exact Nat.div_add_mod m p

theorem splitSizes_length (xs : List α) (szs : List Nat) :
    (splitSizes xs szs).length = szs.length := by
  induction szs generalizing xs with
  | nil => simp [splitSizes]
  | cons sz rest ih => simp [splitSizes, ih]

theorem splitSizes_flatten (xs : List α) (szs : List Nat) (h : szs.sum = xs.length) :
    (splitSizes xs szs).flatten = xs := by
  induction szs generalizing xs with
  | nil =>
    simp at h
    simp [splitSizes, List.eq_nil_of_length_eq_zero h.symm]
  | cons sz rest ih =>
    have hsz : sz + rest.sum = xs.length := by simpa using h
    simp [splitSizes]
    have hdrop : rest.sum = (xs.drop sz).length := by
      simp [List.length_drop]
      omega
    rw [ih (xs.drop sz) hdrop]
    exact List.take_append_drop sz xs

theorem splitChunks_length (n : Nat) (xs : List α) :
    (splitChunks n xs).length = min (max n 1) xs.length := by
  unfold splitChunks chunkSizes
  rw [splitSizes_length, chunkSizesAux_length]

theorem splitChunks_flatten (n : Nat) (xs : List α) :
    (splitChunks n xs).flatten = xs := by
  unfold splitChunks
  cases xs with
  | nil => simp [chunkSizes, chunkSizesAux, splitSizes]
  | cons x rest =>
    apply splitSizes_flatten
    apply chunkSizes_sum
    have h1 : 1 ≤ max n 1 := Nat.le_max_right n 1
    have h2 : 1 ≤ (x :: rest).length := by simp
    have : 1 ≤ min (max n 1) (x :: rest).length := le_min h1 h2
    omega

/-! Projection lemmas -/

theorem validateProjection_ok_valid (s : Schema) (p : Projection) (idxs : List Nat)
    (h : validateProjection s p = .ok idxs) :
    (∀ i ∈ idxs, i < s.length) ∧ idxs.Nodup := by
  cases p with
  | all =>
    simp only [validateProjection, Except.ok.injEq] at h
    subst h
    exact ⟨fun i hi => List.mem_range.mp hi, List.nodup_range _⟩
  | cols js =>
    simp only [validateProjection] at h
    by_cases hc : ((js.all fun i => decide (i < List.length s)) && decide js.Nodup) = true
    · rw [if_pos hc] at h
      simp only [Except.ok.injEq] at h
      subst h
      have h1 := Bool.and_elim_left hc
      have h2 := Bool.and_elim_right hc
      refine ⟨fun i hi => ?_, of_decide_eq_true h2⟩
      exact of_decide_eq_true (List.all_eq_true.mp h1 i hi)
    · rw [if_neg hc] at h
      cases h

theorem projectSchema_length (s : Schema) (idxs : List Nat) :
    (projectSchema s idxs).length = idxs.length := by
  simp [projectSchema]

theorem projectSchema_getElem (s : Schema) (idxs : List Nat) (k : Nat)
    (hk : k < idxs.length) (hv : idxs[k] < s.length) :
    (projectSchema s idxs).get ⟨k, by simpa [projectSchema_length] using hk⟩ = s[idxs[k]] := by
  have h1 : (projectSchema s idxs).get ⟨k, by simpa [projectSchema_length] using hk⟩ =
      s.getD idxs[k] ⟨"", .str, false⟩ := by
    simp [projectSchema]
  rw [h1, List.getD_eq_getElem _ _ hv]

theorem projectBatch_numRows (idxs : List Nat) (b : Batch) :
    (projectBatch idxs b).numRows = b.numRows := rfl

theorem projectBatch_schema (idxs : List Nat) (b : Batch) :
    (projectBatch idxs b).schema = projectSchema b.schema idxs := rfl

theorem projectBatch_columns_length (idxs : List Nat) (b : Batch) :
    (projectBatch idxs b).columns.length = idxs.length := by
  simp [projectBatch]

theorem projectBatch_getElem (idxs : List Nat) (b : Batch) (k : Nat)
    (hk : k < idxs.length) (hv : idxs[k] < b.columns.length) :
    (projectBatch idxs b).columns.get ⟨k, by simpa [projectBatch_columns_length] using hk⟩ =
      b.columns[idxs[k]] := by
  have h1 : (projectBatch idxs b).columns.get ⟨k, by simpa [projectBatch_columns_length] using hk⟩ =
      b.columns.getD idxs[k] [] := by
    simp [projectBatch]
  rw [h1, List.getD_eq_getElem _ _ hv]

theorem projectBatch_wf (idxs : List Nat) (b : Batch) (hb : b.wf)
    (hv : ∀ i ∈ idxs, i < b.schema.length) : (projectBatch idxs b).wf := by
  obtain ⟨hlen, hcols⟩ := hb
  constructor
  · rw [projectBatch_columns_length, projectBatch_schema, projectSchema_length]
  · intro c hc
    rw [projectBatch_numRows]
    simp only [projectBatch, List.mem_map] at hc
    obtain ⟨i, hi, rfl⟩ := hc
    have hilt : i < b.columns.length := by
      rw [hlen]
      exact hv i hi
    rw [List.getD_eq_getElem _ _ hilt]
    exact hcols _ (List.getElem_mem hilt)

theorem wellTypedB_iff (b : Batch) (hlen : b.columns.length = b.schema.length) :
    b.wellTypedB = true ↔
      ∀ k (hc : k < b.columns.length) (hs : k < b.schema.length),
        (b.columns[k].all fun v => v.conforms b.schema[k].dtype) = true := by
  rw [Batch.wellTypedB, List.all_eq_true]
  constructor
  · intro ht k hc hs
    have hmem : (b.columns[k], b.schema[k]) ∈ b.columns.zip b.schema := by
      rw [List.mem_iff_getElem]
      refine ⟨k, ?_, ?_⟩
      · rw [List.length_zip]
        exact lt_min hc hs
      · exact List.getElem_zip
    exact ht _ hmem
  · intro h p hp
    rw [List.mem_iff_getElem] at hp
    obtain ⟨k, hk, hget⟩ := hp
    have hkc : k < b.columns.length := by
      rw [List.length_zip] at hk
      omega
    have hks : k < b.schema.length := by
      rw [List.length_zip] at hk
      omega
    have hz : (b.columns.zip b.schema)[k] = (b.columns[k], b.schema[k]) :=
      List.getElem_zip
    rw [hz] at hget
    subst hget
    exact h k hkc hks

theorem projectBatch_wellTyped (idxs : List Nat) (b : Batch) (hb : b.wf)
    (hv : ∀ i ∈ idxs, i < b.schema.length) (ht : b.wellTypedB = true) :
    (projectBatch idxs b).wellTypedB = true := by
  obtain ⟨hlen, _⟩ := hb
  have hplen : (projectBatch idxs b).columns.length = (projectBatch idxs b).schema.length := by
    rw [projectBatch_columns_length, projectBatch_schema, projectSchema_length]
  rw [wellTypedB_iff _ hplen]
  intro k hc hs
  have hkz : k < idxs.length := by
    rwa [projectBatch_columns_length] at hc
  have hik : idxs[k] < b.schema.length := hv _ (List.getElem_mem hkz)
  have hik2 : idxs[k] < b.columns.length := by rwa [hlen]
  have e1 : (projectBatch idxs b).columns[k] = b.columns[idxs[k]] :=
    projectBatch_getElem idxs b k hkz hik2
  have e2 : (projectBatch idxs b).schema[k] = b.schema[idxs[k]] :=
    projectSchema_getElem b.schema idxs k hkz hik
  have hsrc := (wellTypedB_iff b hlen).mp ht idxs[k] hik2 hik
  rw [← e1, ← e2] at hsrc
  exact hsrc

theorem projectSchema_range (s : Schema) :
    projectSchema s (List.range s.length) = s := by
  apply List.ext_getElem
  · rw [projectSchema_length, List.length_range]
  · intro i h1 h2
    have hd : i < s.length := h2
    simp only [projectSchema, List.getElem_map, List.getElem_range]
    rw [List.getD_eq_getElem _ _ hd]

theorem projectBatch_range (b : Batch) (hlen : b.columns.length = b.schema.length) :
    projectBatch (List.range b.schema.length) b = b := by
  cases b with
  | mk s m cols =>
    simp only at hlen
    simp only [projectBatch, projectSchema_range]
    congr 1
    apply List.ext_getElem
    · simp [hlen]
    · intro i h1 h2
      simp only [List.getElem_map, List.getElem_range]
      rw [List.getD_eq_getElem _ _ h2]

/-! Scan inversion lemmas -/

theorem mem_scan_ok (t : MemTable) (proj : Projection) (n : Nat)
    (r : ScanResult MemBatchIterator) (h : t.scan proj n = .ok r) :
    ∃ idxs, validateProjection t.schema proj = .ok idxs ∧
      r.schema = projectSchema t.schema idxs ∧
      r.partitions = (splitChunks n t.batches).map fun bs =>
        { schema := projectSchema t.schema idxs
          batches := bs.map (projectBatch idxs) } := by
  unfold MemTable.scan at h
  cases hv : validateProjection t.schema proj with
  | error e =>
    rw [hv] at h
    cases h
  | ok idxs =>
    rw [hv] at h
    simp only [Except.ok.injEq] at h
    subst h
    exact ⟨idxs, rfl, rfl, rfl⟩

theorem MemTable.scan_err (t : MemTable) (proj : Projection) (n : Nat) (e : DSError)
    (h : validateProjection t.schema proj = .error e) : t.scan proj n = .error e := by
  unfold MemTable.scan
  rw [h]

theorem csv_scan_ok (f : CsvFile) (proj : Projection) (n : Nat)
    (r : ScanResult (ProjectedIterator CsvBatchIterator)) (h : f.scan proj n = .ok r) :
    ∃ d idxs, f.file = some d ∧
      validateProjection (inferSchema f.inferBound d) proj = .ok idxs ∧
      r.schema = projectSchema (inferSchema f.inferBound d) idxs ∧
      r.partitions = (splitChunks n d.rows).map fun rs =>
        { idxs := idxs
          inner := { schema := inferSchema f.inferBound d, batchSize := f.batchSize
                     rows := rs, rowIndex := 0, failed := false } } := by
  unfold CsvFile.scan at h
  cases hf : f.file with
  | none =>
    rw [hf] at h
    cases h
  | some d =>
    rw [hf] at h
    dsimp only at h
    cases hv : validateProjection (inferSchema f.inferBound d) proj with
    | error e =>
      rw [hv] at h
      cases h
    | ok idxs =>
      rw [hv] at h
      simp only [Except.ok.injEq] at h
      subst h
      exact ⟨d, idxs, rfl, hv, rfl, rfl⟩

theorem CsvFile.scan_err_source (f : CsvFile) (proj : Projection) (n : Nat)
    (h : f.file = none) : f.scan proj n = .error .sourceUnavailable := by
  unfold CsvFile.scan
  rw [h]

theorem CsvFile.scan_err_projection (f : CsvFile) (proj : Projection) (n : Nat)
    (d : CsvData) (e : DSError) (hf : f.file = some d)
    (h : validateProjection (inferSchema f.inferBound d) proj = .error e) :
    f.scan proj n = .error e := by
  unfold CsvFile.scan
  rw [hf]
  dsimp only
  rw [h]

/-! Iterator step lemmas -/

theorem mem_next_eosStable : eosStable MemBatchIterator.next := by
  intro s s' h
  unfold MemBatchIterator.next at h
  cases hb : s.batches with
  | nil =>
    rw [hb] at h
    simp only [Prod.mk.injEq] at h
    obtain ⟨-, h2⟩ := h
    subst h2
    refine ⟨rfl, ?_⟩
    unfold MemBatchIterator.next
    rw [hb]
  | cons b rest =>
    rw [hb] at h
    simp at h

theorem csv_next_eosStable : eosStable CsvBatchIterator.next := by
  intro s s' h
  unfold CsvBatchIterator.next at h
  by_cases hf : s.failed = true
  · rw [if_pos hf] at h
    simp at h
  · rw [if_neg hf] at h
    cases hr : s.rows with
    | nil =>
      rw [hr] at h
      simp only [Prod.mk.injEq] at h
      obtain ⟨-, h2⟩ := h
      subst h2
      refine ⟨rfl, ?_⟩
      unfold CsvBatchIterator.next
      rw [if_neg hf, hr]
    | cons r rest =>
      rw [hr] at h
      dsimp only at h
      cases hd : decodeFields s.schema r with
      | none =>
        rw [hd] at h
        simp at h
      | some v0 =>
        rw [hd] at h
        simp at h

theorem proj_next_eosStable {ι : Type} (step : ι → NextResult × ι) (hstep : eosStable step) :
    eosStable (ProjectedIterator.next step) := by
  intro s s' h
  unfold ProjectedIterator.next at h
  cases hs : step s.inner with
  | mk res i2 =>
    rw [hs] at h
    cases res with
    | batch b => simp at h
    | failed e => simp at h
    | endOfStream =>
      simp only [Prod.mk.injEq] at h
      obtain ⟨-, h2⟩ := h
      obtain ⟨hi, hstep2⟩ := hstep s.inner i2 hs
      subst hi
      have hss : s' = s := by
        rw [← h2]
      subst hss
      refine ⟨rfl, ?_⟩
      unfold ProjectedIterator.next
      rw [hs]

theorem csv_next_nonempty : yieldsNonempty CsvBatchIterator.next := by
  intro s b s' h
  unfold CsvBatchIterator.next at h
  by_cases hf : s.failed = true
  · rw [if_pos hf] at h
    simp at h
  · rw [if_neg hf] at h
    cases hr : s.rows with
    | nil =>
      rw [hr] at h
      simp at h
    | cons r rest =>
      rw [hr] at h
      dsimp only at h
      cases hd : decodeFields s.schema r with
      | none =>
        rw [hd] at h
        simp at h
      | some v0 =>
        rw [hd] at h
        simp only [Prod.mk.injEq, NextResult.batch.injEq] at h
        obtain ⟨h1, -⟩ := h
        subst h1
        simp [rowsToBatch]

theorem proj_next_nonempty {ι : Type} (step : ι → NextResult × ι)
    (hstep : yieldsNonempty step) : yieldsNonempty (ProjectedIterator.next step) := by
  intro s b s' h
  unfold ProjectedIterator.next at h
  cases hs : step s.inner with
  | mk res i2 =>
    rw [hs] at h
    cases res with
    | endOfStream => simp at h
    | failed e => simp at h
    | batch b0 =>
      simp only [Prod.mk.injEq, NextResult.batch.injEq] at h
      obtain ⟨h1, -⟩ := h
      subst h1
      rw [projectBatch_numRows]
      exact hstep s.inner b0 i2 hs

theorem mem_next_nonempty (it : MemBatchIterator) (b : Batch) (it' : MemBatchIterator)
    (hb : ∀ x ∈ it.batches, 0 < x.numRows) (h : it.next = (.batch b, it')) :
    0 < b.numRows ∧ ∀ x ∈ it'.batches, 0 < x.numRows := by
  unfold MemBatchIterator.next at h
  cases hr : it.batches with
  | nil =>
    rw [hr] at h
    simp at h
  | cons b0 rest =>
    rw [hr] at h
    simp only [Prod.mk.injEq, NextResult.batch.injEq] at h
    obtain ⟨h1, h2⟩ := h
    subst h1
    subst h2
    rw [hr] at hb
    exact ⟨hb _ (List.mem_cons_self _ _), fun x hx => hb x (List.mem_cons_of_mem _ hx)⟩

/-! CSV decoding lemmas -/

theorem decodeFields_none_of_length_ne (fs : List Field) (ss : List String)
    (h : ss.length ≠ fs.length) : decodeFields fs ss = none := by
  induction fs generalizing ss with
  | nil =>
    cases ss with
    | nil => simp at h
    | cons s ss => rfl
  | cons f ftl ih =>
    cases ss with
    | nil => rfl
    | cons s stl =>
      have hne : stl.length ≠ ftl.length := by
        simp at h
        omega
      unfold decodeFields
      cases decodeField f.dtype s with
      | none => rfl
      | some v =>
        rw [ih stl hne]
        rfl

theorem decodeFields_some_length (fs : List Field) (ss : List String) (vs : List Value)
    (h : decodeFields fs ss = some vs) : vs.length = fs.length := by
  induction fs generalizing ss vs with
  | nil =>
    cases ss with
    | nil =>
      simp [decodeFields] at h
      subst h
      rfl
    | cons s stl => cases h
  | cons f ftl ih =>
    cases ss with
    | nil => cases h
    | cons s stl =>
      unfold decodeFields at h
      cases hv : decodeField f.dtype s with
      | none =>
        rw [hv] at h
        cases h
      | some v =>
        rw [hv] at h
        cases htl : decodeFields ftl stl with
        | none =>
          rw [htl] at h
          cases h
        | some vtl =>
          rw [htl] at h
          have h2 : some (v :: vtl) = some vs := h
          injection h2 with he
          subst he
          simp [ih stl vtl htl]

theorem csvDecodeChunk_malformed_head (schema : Schema) (k : Nat) (r : List String)
    (rest : List (List String)) (h : decodeFields schema r = none) :
    csvDecodeChunk schema k (r :: rest) = ([], r :: rest) := by
  cases k with
  | zero => rfl
  | succ k =>
    unfold csvDecodeChunk
    rw [h]

theorem validateProjection_invalid (s : Schema) (js : List Nat)
    (h : (∃ i ∈ js, s.length ≤ i) ∨ ¬js.Nodup) :
    validateProjection s (.cols js) = .error .invalidProjection := by
  simp only [validateProjection]
  rw [if_neg]
  intro hc
  have h1 := Bool.and_elim_left hc
  have h2 := Bool.and_elim_right hc
  rcases h with ⟨i, hi, hle⟩ | hnd
  · have := of_decide_eq_true (List.all_eq_true.mp h1 i hi)
    omega
  · exact hnd (of_decide_eq_true h2)

theorem mem_of_mem_splitChunks {xs : List α} {n : Nat} {c : List α} {x : α}
    (hc : c ∈ splitChunks n xs) (hx : x ∈ c) : x ∈ xs := by
  have hfl := splitChunks_flatten n xs
  rw [← hfl]
  exact List.mem_flatten.mpr ⟨c, hc, hx⟩

theorem csv_next_failed_sticky (it it' : CsvBatchIterator) (e : DSError)
    (h : it.next = (.failed e, it')) : it'.failed = true := by
  unfold CsvBatchIterator.next at h
  by_cases hf : it.failed = true
  · rw [if_pos hf] at h
    simp only [Prod.mk.injEq] at h
    obtain ⟨-, h2⟩ := h
    subst h2
    exact hf
  · rw [if_neg hf] at h
    cases hr : it.rows with
    | nil =>
      rw [hr] at h
      simp at h
    | cons r rest =>
      rw [hr] at h
      dsimp only at h
      cases hd : decodeFields it.schema r with
      | none =>
        rw [hd] at h
        simp only [Prod.mk.injEq] at h
        obtain ⟨-, h2⟩ := h
        subst h2
        rfl
      | some v0 =>
        rw [hd] at h
        simp at h

theorem stepPartition_isolated {σ : Type} (step : σ → NextResult × σ) (its : List σ)
    (i j : Nat) (hne : j ≠ i) : ((stepPartition step its i).2)[j]? = its[j]? := by
  unfold stepPartition
  cases hi : its[i]? with
  | none => rfl
  | some it =>
    dsimp only
    exact List.getElem?_set_ne (fun he => hne he.symm)

/-! Claim theorems -/

/-- C9: on wasm32 the csv and parquet modules and the CsvBatchIterator
and CsvFile re-exports are excluded from the public surface of the
manifest,
while the datasource and memory modules and the ScanResult,
TableProvider, MemBatchIterator and MemTable re-exports are compiled and
exported on every target, wasm32 included. -/
theorem C9_wasm32_exports :
    exportedModules .wasm32 = ["datasource", "memory"] ∧
    exportedNames .wasm32 = ["ScanResult", "TableProvider", "MemBatchIterator", "MemTable"] ∧
    exportedModules .other = ["csv", "datasource", "memory", "parquet"] ∧
    exportedNames .other =
      ["CsvBatchIterator", "CsvFile", "ScanResult", "TableProvider",
       "MemBatchIterator", "MemTable"] ∧
    ("csv" ∉ exportedModules .wasm32 ∧ "parquet" ∉ exportedModules .wasm32) ∧
    ("CsvBatchIterator" ∉ exportedNames .wasm32 ∧ "CsvFile" ∉ exportedNames .wasm32) := by
  decide

/-- C10: the datasource manifest defines no items of its own; its public
surface is exactly the four submodules plus the six re-exported names
the spec lists, and each re-exported name resolves to the identical
(module, name) item as the path through its defining submodule. -/
theorem C10_manifest_surface :
    datasourceOwnDefs = [] ∧
    exportedModules .other = specSurfaceModules ∧
    exportedNames .other = specSurfaceNames.map Prod.fst ∧
    ∀ p ∈ specSurfaceNames, reExportTarget p.1 = some p.2 ∧
      resolve [p.1] = some (p.2, p.1) ∧ resolve [p.1] = resolve [p.2, p.1] := by
  decide

theorem C10_manifest_surface_witness :
    ("ScanResult", "datasource") ∈ specSurfaceNames ∧
    resolve ["ScanResult"] = resolve ["datasource", "ScanResult"] :=
  ⟨by decide, (C10_manifest_surface.2.2.2 ("ScanResult", "datasource") (by decide)).2.2⟩

/-- C3: a scan whose projection contains an out-of-range or duplicate
index fails with InvalidProjection, producing no ScanResult — for the
in-memory provider and for the CSV provider with an available file; in
particular a 3-column schema rejects the projection [0, 5]. -/
theorem C3_invalid_projection_rejected :
    (∀ (t : MemTable) (js : List Nat) (n : Nat),
      ((∃ i ∈ js, t.schema.length ≤ i) ∨ ¬js.Nodup) →
      t.scan (.cols js) n = .error .invalidProjection) ∧
    (∀ (f : CsvFile) (d : CsvData) (js : List Nat) (n : Nat),
      f.file = some d →
      ((∃ i ∈ js, (inferSchema f.inferBound d).length ≤ i) ∨ ¬js.Nodup) →
      f.scan (.cols js) n = .error .invalidProjection) := by
  constructor
  · intro t js n h
    exact t.scan_err (.cols js) n _ (validateProjection_invalid t.schema js h)
  · intro f d js n hf h
    exact f.scan_err_projection (.cols js) n d _ hf
      (validateProjection_invalid (inferSchema f.inferBound d) js h)

theorem C3_invalid_projection_rejected_witness :
    ((∃ i ∈ [0, 5], sampleMem3.schema.length ≤ i) ∨ ¬List.Nodup [0, 5]) ∧
    sampleMem3.scan (.cols [0, 5]) 1 = .error .invalidProjection ∧
    (sampleCsvFile.file = some { header := ["a", "b", "c"]
                                 rows := [["1", "2", "u"], ["3", "4", "v"]] }) ∧
    sampleCsvFile.scan (.cols [0, 5]) 1 = .error .invalidProjection :=
  ⟨by decide,
   C3_invalid_projection_rejected.1 sampleMem3 [0, 5] 1 (by decide),
   by decide,
   C3_invalid_projection_rejected.2 sampleCsvFile
     { header := ["a", "b", "c"], rows := [["1", "2", "u"], ["3", "4", "v"]] }
     [0, 5] 1 (by decide) (by decide)⟩

/-- C5: once a batch iterator has signalled end-of-stream, every
subsequent next() also signals end-of-stream, with no error and no state
change — for the in-memory iterator, the CSV iterator, and the
projection wrapper over any iterator with this property. -/
theorem C5_eos_idempotent :
    eosStable MemBatchIterator.next ∧
    eosStable CsvBatchIterator.next ∧
    ∀ (ι : Type) (step : ι → NextResult × ι),
      eosStable step → eosStable (ProjectedIterator.next step) :=
  ⟨mem_next_eosStable, csv_next_eosStable, fun _ step h => proj_next_eosStable step h⟩

/-- C1: for a valid projection J, every batch yielded by any iterator of
a scan has exactly |J| columns, in the order and with the types of the
projected schema, and applying the projection preserves the row count
and the row order of the underlying batches — proved for the in-memory
scan pipeline and for the shared projection wrapper around any batch. -/
theorem C1_projection_conformance :
    (∀ (t : MemTable) (proj : Projection) (idxs : List Nat) (n : Nat)
        (r : ScanResult MemBatchIterator),
      validateProjection t.schema proj = .ok idxs →
      t.scan proj n = .ok r →
      (∀ b ∈ t.batches, b.schema = t.schema ∧ b.wf) →
      r.schema = projectSchema t.schema idxs ∧
      (∀ it ∈ r.partitions, it.schema = r.schema) ∧
      (r.partitions.map MemBatchIterator.batches).flatten =
        t.batches.map (projectBatch idxs) ∧
      (∀ it ∈ r.partitions, ∀ b ∈ it.batches,
        b.columns.length = idxs.length ∧ b.schema = r.schema ∧ b.wf)) ∧
    (∀ (idxs : List Nat) (b : Batch),
      b.wf →
      (∀ i ∈ idxs, i < b.schema.length) →
      (projectBatch idxs b).columns.length = idxs.length ∧
      (projectBatch idxs b).schema = projectSchema b.schema idxs ∧
      (projectBatch idxs b).numRows = b.numRows ∧
      (projectBatch idxs b).wf ∧
      (b.wellTypedB = true → (projectBatch idxs b).wellTypedB = true) ∧
      (∀ k, k < idxs.length →
        (projectBatch idxs b).columns.getD k [] = b.columns.getD (idxs.getD k 0) [] ∧
        (projectBatch idxs b).schema.getD k ⟨"", .str, false⟩ =
          b.schema.getD (idxs.getD k 0) ⟨"", .str, false⟩)) := by
  constructor
  · intro t proj idxs n r hv hs hb
    obtain ⟨idxs2, hv2, hsch, hparts⟩ := mem_scan_ok t proj n r hs
    rw [hv] at hv2
    injection hv2 with he
    subst he
    obtain ⟨hvr, -⟩ := validateProjection_ok_valid t.schema proj idxs hv
    refine ⟨hsch, ?_, ?_, ?_⟩
    · intro it hit
      rw [hparts] at hit
      simp only [List.mem_map] at hit
      obtain ⟨bs, -, rfl⟩ := hit
      rw [hsch]
    · rw [hparts, List.map_map]
      have hfl := splitChunks_flatten n t.batches
      calc ((splitChunks n t.batches).map
              (List.map (projectBatch idxs))).flatten
          = (splitChunks n t.batches).flatten.map (projectBatch idxs) :=
            (List.map_flatten _ _).symm
        _ = t.batches.map (projectBatch idxs) := by rw [hfl]
    · intro it hit b hbm
      rw [hparts] at hit
      simp only [List.mem_map] at hit
      obtain ⟨bs, hbs, rfl⟩ := hit
      simp only [List.mem_map] at hbm
      obtain ⟨b0, hb0, rfl⟩ := hbm
      have hb0src : b0 ∈ t.batches := mem_of_mem_splitChunks hbs hb0
      obtain ⟨hbsch, hbwf⟩ := hb b0 hb0src
      have hv0 : ∀ i ∈ idxs, i < b0.schema.length := by
        rw [hbsch]
        exact hvr
      refine ⟨projectBatch_columns_length idxs b0, ?_, projectBatch_wf idxs b0 hbwf hv0⟩
      rw [projectBatch_schema, hbsch, hsch]
  · intro idxs b hwf hv
    refine ⟨projectBatch_columns_length idxs b, projectBatch_schema idxs b,
      projectBatch_numRows idxs b, projectBatch_wf idxs b hwf hv,
      fun ht => projectBatch_wellTyped idxs b hwf hv ht, ?_⟩
    intro k hk
    have hvk : idxs[k] < b.schema.length := hv _ (List.getElem_mem hk)
    have hvk2 : idxs[k] < b.columns.length := by
      rw [hwf.1]
      exact hvk
    have hkp : k < (projectBatch idxs b).columns.length := by
      rw [projectBatch_columns_length]
      exact hk
    have hks : k < (projectBatch idxs b).schema.length := by
      rw [projectBatch_schema, projectSchema_length]
      exact hk
    constructor
    · rw [List.getD_eq_getElem _ _ hkp, List.getD_eq_getElem idxs 0 hk,
        List.getD_eq_getElem _ _ hvk2]
      exact projectBatch_getElem idxs b k hk hvk2
    · rw [List.getD_eq_getElem _ _ hks, List.getD_eq_getElem idxs 0 hk,
        List.getD_eq_getElem _ _ hvk]
      exact projectSchema_getElem b.schema idxs k hk hvk

theorem C1_projection_conformance_witness :
    validateProjection sampleMem.schema (.cols [1]) = .ok [1] ∧
    sampleMem.scan (.cols [1]) 1 = .ok sampleScanR ∧
    (∀ b ∈ sampleMem.batches, b.schema = sampleMem.schema ∧ b.wf) ∧
    sampleScanR.schema = projectSchema sampleMem.schema [1] ∧
    (sampleScanR.partitions.map MemBatchIterator.batches).flatten =
      sampleMem.batches.map (projectBatch [1]) ∧
    (projectBatch [1] sampleBatchA).columns.length = 1 ∧
    (projectBatch [1] sampleBatchA).numRows = sampleBatchA.numRows :=
  ⟨by decide, by decide, by decide,
   (C1_projection_conformance.1 sampleMem (.cols [1]) [1] 1 sampleScanR
     (by decide) (by decide) (by decide)).1,
   (C1_projection_conformance.1 sampleMem (.cols [1]) [1] 1 sampleScanR
     (by decide) (by decide) (by decide)).2.2.1,
   (C1_projection_conformance.2 [1] sampleBatchA (by decide) (by decide)).1,
   (C1_projection_conformance.2 [1] sampleBatchA (by decide) (by decide)).2.2.1⟩

/-- C2 as stated is refuted by `C2_partition_counts_counterexample`; the
amended claim: for 1 ≤ n ≤ the natural partition count, scan returns
exactly n iterators; for larger n it returns at most the natural count,
never more; requesting 0 or 1 partitions of a source with at least one
natural split yields a single iterator; and the union of the rows
across the returned iterators is the complete source, in order, with no
duplication or loss. -/
theorem C2_partition_counts :
    (∀ (t : MemTable) (proj : Projection) (n : Nat) (r : ScanResult MemBatchIterator),
      t.scan proj n = .ok r →
      r.partitions.length ≤ t.batches.length ∧
      (1 ≤ n → n ≤ t.batches.length → r.partitions.length = n) ∧
      (n ≤ 1 → 1 ≤ t.batches.length → r.partitions.length = 1) ∧
      ∃ idxs, validateProjection t.schema proj = .ok idxs ∧
        (r.partitions.map MemBatchIterator.batches).flatten =
          t.batches.map (projectBatch idxs)) ∧
    (∀ (f : CsvFile) (d : CsvData) (proj : Projection) (n : Nat)
        (r : ScanResult (ProjectedIterator CsvBatchIterator)),
      f.file = some d →
      f.scan proj n = .ok r →
      r.partitions.length ≤ d.rows.length ∧
      (1 ≤ n → n ≤ d.rows.length → r.partitions.length = n) ∧
      (n ≤ 1 → 1 ≤ d.rows.length → r.partitions.length = 1) ∧
      (r.partitions.map fun it => it.inner.rows).flatten = d.rows) := by
  constructor
  · intro t proj n r hs
    obtain ⟨idxs, hv, -, hparts⟩ := mem_scan_ok t proj n r hs
    have hlen : r.partitions.length = min (max n 1) t.batches.length := by
      rw [hparts, List.length_map, splitChunks_length]
    refine ⟨by omega, by omega, by omega, idxs, hv, ?_⟩
    rw [hparts, List.map_map]
    have hfl := splitChunks_flatten n t.batches
    calc ((splitChunks n t.batches).map (List.map (projectBatch idxs))).flatten
        = (splitChunks n t.batches).flatten.map (projectBatch idxs) :=
          (List.map_flatten _ _).symm
      _ = t.batches.map (projectBatch idxs) := by rw [hfl]
  · intro f d proj n r hf hs
    obtain ⟨d2, idxs, hf2, -, -, hparts⟩ := csv_scan_ok f proj n r hs
    rw [hf] at hf2
    injection hf2 with he
    subst he
    have hlen : r.partitions.length = min (max n 1) d.rows.length := by
      rw [hparts, List.length_map, splitChunks_length]
    refine ⟨by omega, by omega, by omega, ?_⟩
    rw [hparts, List.map_map]
    calc ((splitChunks n d.rows).map fun rs => rs).flatten
        = (splitChunks n d.rows).flatten := by
          rw [show ((fun rs => rs) : List (List String) → List (List String)) = id from rfl,
            List.map_id]
      _ = d.rows := splitChunks_flatten n d.rows

theorem C2_partition_counts_counterexample :
    memScanPartitionCount sampleMem .all 0 = some 1 ∧
    (0 : Nat) ≤ sampleMem.batches.length ∧
    some (1 : Nat) ≠ some (0 : Nat) ∧
    memScanPartitionCount emptyMem .all 1 = some 0 ∧
    some (0 : Nat) ≠ some (1 : Nat) := by
  decide

theorem C2_partition_counts_witness :
    sampleMem.scan .all 1 = .ok sampleScanAll ∧
    (1 : Nat) ≤ 1 ∧ 1 ≤ sampleMem.batches.length ∧
    sampleScanAll.partitions.length = 1 ∧
    sampleCsvFile.file =
      some { header := ["a", "b", "c"], rows := [["1", "2", "u"], ["3", "4", "v"]] } ∧
    sampleCsvFile.scan .all 1 = .ok sampleCsvScanR ∧
    (sampleCsvScanR.partitions.map fun it => it.inner.rows).flatten =
      [["1", "2", "u"], ["3", "4", "v"]] :=
  ⟨by decide, by decide, by decide,
   ((C2_partition_counts.1 sampleMem .all 1 sampleScanAll (by decide)).2.1
     (by decide) (by decide)),
   by decide, by decide,
   (C2_partition_counts.2 sampleCsvFile
     { header := ["a", "b", "c"], rows := [["1", "2", "u"], ["3", "4", "v"]] }
     .all 1 sampleCsvScanR (by decide) (by decide)).2.2.2⟩

/-- C7: scanning an in-memory table built from N batches with the
all-columns projection and one partition yields exactly those N batches,
unchanged and in the original order. -/
theorem C7_mem_roundtrip :
    ∀ (t : MemTable) (r : ScanResult MemBatchIterator),
      t.scan .all 1 = .ok r →
      (∀ b ∈ t.batches, b.schema = t.schema ∧ b.columns.length = t.schema.length) →
      r.schema = t.schema ∧
      (r.partitions.map MemBatchIterator.batches).flatten = t.batches ∧
      (t.batches ≠ [] → r.partitions.length = 1) := by
  intro t r hs hb
  obtain ⟨idxs, hv, hsch, hparts⟩ := mem_scan_ok t .all 1 r hs
  have hall : validateProjection t.schema .all = .ok (List.range t.schema.length) := rfl
  rw [hall] at hv
  injection hv with he
  subst he
  refine ⟨by rw [hsch, projectSchema_range], ?_, ?_⟩
  · rw [hparts, List.map_map]
    have hfl := splitChunks_flatten 1 t.batches
    have hcongr : t.batches.map (projectBatch (List.range t.schema.length)) = t.batches := by
      have : ∀ b ∈ t.batches, projectBatch (List.range t.schema.length) b = b := by
        intro b hbm
        obtain ⟨h1, h2⟩ := hb b hbm
        rw [← h1]
        exact projectBatch_range b (by rw [h2, h1])
      rw [List.map_congr_left this]
      exact List.map_id t.batches
    calc ((splitChunks 1 t.batches).map
            (List.map (projectBatch (List.range t.schema.length)))).flatten
        = (splitChunks 1 t.batches).flatten.map
            (projectBatch (List.range t.schema.length)) := (List.map_flatten _ _).symm
      _ = t.batches.map (projectBatch (List.range t.schema.length)) := by rw [hfl]
      _ = t.batches := hcongr
  · intro hne
    rw [hparts, List.length_map, splitChunks_length]
    have : 1 ≤ t.batches.length := List.length_pos.mpr hne
    omega

theorem C7_mem_roundtrip_witness :
    sampleMem.scan .all 1 = .ok sampleScanAll ∧
    (∀ b ∈ sampleMem.batches,
      b.schema = sampleMem.schema ∧ b.columns.length = List.length sampleMem.schema) ∧
    (sampleScanAll.partitions.map MemBatchIterator.batches).flatten = sampleMem.batches :=
  ⟨by decide, by decide,
   (C7_mem_roundtrip sampleMem sampleScanAll (by decide) (by decide)).2.1⟩

/-- C8: no iterator ever yields an empty batch — the CSV iterator and
the projection wrapper unconditionally, the in-memory iterator and the
in-memory scan pipeline whenever the batches supplied at construction
are non-empty — so exhaustion is signalled only by ending the
sequence. -/
theorem C8_no_empty_batches :
    yieldsNonempty CsvBatchIterator.next ∧
    (∀ (ι : Type) (step : ι → NextResult × ι),
      yieldsNonempty step → yieldsNonempty (ProjectedIterator.next step)) ∧
    (∀ (it : MemBatchIterator) (b : Batch) (it2 : MemBatchIterator),
      (∀ x ∈ it.batches, 0 < x.numRows) → it.next = (.batch b, it2) →
      0 < b.numRows ∧ ∀ x ∈ it2.batches, 0 < x.numRows) ∧
    (∀ (t : MemTable) (proj : Projection) (n : Nat) (r : ScanResult MemBatchIterator),
      t.scan proj n = .ok r → (∀ b ∈ t.batches, 0 < b.numRows) →
      ∀ it ∈ r.partitions, ∀ b ∈ it.batches, 0 < b.numRows) := by
  refine ⟨csv_next_nonempty, fun _ step h => proj_next_nonempty step h,
    mem_next_nonempty, ?_⟩
  intro t proj n r hs hbpos it hit b hbm
  obtain ⟨idxs, -, -, hparts⟩ := mem_scan_ok t proj n r hs
  rw [hparts] at hit
  simp only [List.mem_map] at hit
  obtain ⟨bs, hbs, rfl⟩ := hit
  simp only [List.mem_map] at hbm
  obtain ⟨b0, hb0, rfl⟩ := hbm
  rw [projectBatch_numRows]
  exact hbpos b0 (mem_of_mem_splitChunks hbs hb0)

theorem C8_no_empty_batches_witness :
    sampleCsvIter.next =
      (NextResult.batch (rowsToBatch sampleSchema3 [[.vInt 1, .vInt 2, .vStr "u"]]),
       { schema := sampleSchema3, batchSize := 4, rows := [["3", "4"]],
         rowIndex := 1, failed := false }) ∧
    0 < (rowsToBatch sampleSchema3 [[.vInt 1, .vInt 2, .vStr "u"]]).numRows ∧
    sampleMem.scan (.cols [1]) 1 = .ok sampleScanR ∧
    (∀ b ∈ sampleMem.batches, 0 < b.numRows) ∧
    (∀ it ∈ sampleScanR.partitions, ∀ b ∈ it.batches, 0 < b.numRows) :=
  ⟨by decide,
   C8_no_empty_batches.1 sampleCsvIter
     (rowsToBatch sampleSchema3 [[.vInt 1, .vInt 2, .vStr "u"]])
     { schema := sampleSchema3, batchSize := 4, rows := [["3", "4"]],
       rowIndex := 1, failed := false } (by decide),
   by decide, by decide,
   C8_no_empty_batches.2.2.2 sampleMem (.cols [1]) 1 sampleScanR (by decide) (by decide)⟩

/-- C4: schema-time and scan-time errors (SchemaUnavailable,
InvalidProjection, SourceUnavailable) are returned synchronously by
schema/scan and abort the call with no partial ScanResult, while a
mid-stream DecodeError makes only the iterator of the failing
partition terminal and leaves the iterator of every sibling partition
untouched. -/
theorem C4_error_scoping :
    (∀ (t : MemTable) (proj : Projection) (n : Nat) (e : DSError),
      validateProjection t.schema proj = .error e → t.scan proj n = .error e) ∧
    (∀ (f : CsvFile) (proj : Projection) (n : Nat),
      f.file = none →
      f.schema = .error .schemaUnavailable ∧
      f.scan proj n = .error .sourceUnavailable) ∧
    (∀ (f : CsvFile) (d : CsvData) (proj : Projection) (n : Nat) (e : DSError),
      f.file = some d →
      validateProjection (inferSchema f.inferBound d) proj = .error e →
      f.scan proj n = .error e) ∧
    (∀ (it it' : CsvBatchIterator) (e : DSError),
      it.next = (.failed e, it') → it'.failed = true) ∧
    (∀ (σ : Type) (step : σ → NextResult × σ) (its : List σ) (i j : Nat),
      j ≠ i → ((stepPartition step its i).2)[j]? = its[j]?) := by
  refine ⟨?_, ?_, ?_, ?_, ?_⟩
  · intro t proj n e h
    exact t.scan_err proj n e h
  · intro f proj n h
    constructor
    · unfold CsvFile.schema
      rw [h]
    · exact f.scan_err_source proj n h
  · intro f d proj n e hf h
    exact f.scan_err_projection proj n d e hf h
  · intro it it' e h
    exact csv_next_failed_sticky it it' e h
  · intro σ step its i j hne
    exact stepPartition_isolated step its i j hne

theorem C4_error_scoping_witness :
    validateProjection sampleMem.schema (.cols [5]) = .error .invalidProjection ∧
    sampleMem.scan (.cols [5]) 2 = .error .invalidProjection ∧
    missingCsvFile.file = none ∧
    (missingCsvFile.schema = .error .schemaUnavailable ∧
      missingCsvFile.scan .all 3 = .error .sourceUnavailable) ∧
    validateProjection
      (inferSchema sampleCsvFile.inferBound
        { header := ["a", "b", "c"], rows := [["1", "2", "u"], ["3", "4", "v"]] })
      (.cols [9]) = .error .invalidProjection ∧
    sampleCsvFile.scan (.cols [9]) 5 = .error .invalidProjection ∧
    ({ schema := sampleSchema3, batchSize := 4, rows := [["3", "4"]],
       rowIndex := 1, failed := false } : CsvBatchIterator).next =
      (.failed (.decodeError 1),
       { schema := sampleSchema3, batchSize := 4, rows := [["3", "4"]],
         rowIndex := 1, failed := true }) ∧
    ({ schema := sampleSchema3, batchSize := 4, rows := [["3", "4"]],
       rowIndex := 1, failed := true } : CsvBatchIterator).failed = true ∧
    (1 : Nat) ≠ 0 ∧
    ((stepPartition CsvBatchIterator.next [sampleCsvIter, sampleCsvIterB] 0).2)[1]? =
      [sampleCsvIter, sampleCsvIterB][1]? :=
  ⟨by decide,
   C4_error_scoping.1 sampleMem (.cols [5]) 2 .invalidProjection (by decide),
   by decide,
   C4_error_scoping.2.1 missingCsvFile .all 3 (by decide),
   by decide,
   C4_error_scoping.2.2.1 sampleCsvFile
     { header := ["a", "b", "c"], rows := [["1", "2", "u"], ["3", "4", "v"]] }
     (.cols [9]) 5 .invalidProjection (by decide) (by decide),
   by decide,
   C4_error_scoping.2.2.2.1
     { schema := sampleSchema3, batchSize := 4, rows := [["3", "4"]],
       rowIndex := 1, failed := false }
     { schema := sampleSchema3, batchSize := 4, rows := [["3", "4"]],
       rowIndex := 1, failed := true }
     (.decodeError 1) (by decide),
   by decide,
   C4_error_scoping.2.2.2.2 CsvBatchIterator CsvBatchIterator.next
     [sampleCsvIter, sampleCsvIterB] 0 1 (by decide)⟩

/-- C6: scanning a 3-column CSV whose second row has only 2 fields
yields the first row as a one-row batch and then transitions the
iterator to Failed on the attempt to read the second row — the malformed
row is neither skipped nor yielded short or null-padded. -/
theorem C6_csv_failfast :
    ∀ (schema : Schema) (bsz : Nat) (r1 r2 : List String) (rest : List (List String))
      (v1 : List Value),
      schema.length = 3 →
      decodeFields schema r1 = some v1 →
      r2.length = 2 →
      ({ schema := schema, batchSize := bsz, rows := r1 :: r2 :: rest,
         rowIndex := 0, failed := false } : CsvBatchIterator).next =
        (NextResult.batch (rowsToBatch schema [v1]),
         { schema := schema, batchSize := bsz, rows := r2 :: rest,
           rowIndex := 1, failed := false }) ∧
      ({ schema := schema, batchSize := bsz, rows := r2 :: rest,
         rowIndex := 1, failed := false } : CsvBatchIterator).next =
        (NextResult.failed (.decodeError 1),
         { schema := schema, batchSize := bsz, rows := r2 :: rest,
           rowIndex := 1, failed := true }) ∧
      (rowsToBatch schema [v1]).numRows = 1 ∧
      (rowsToBatch schema [v1]).columns.length = schema.length ∧
      v1.length = schema.length := by
  intro schema bsz r1 r2 rest v1 h3 hd1 h2len
  have hne : r2.length ≠ schema.length := by omega
  have hd2 : decodeFields schema r2 = none := decodeFields_none_of_length_ne schema r2 hne
  refine ⟨?_, ?_, rfl, ?_, ?_⟩
  · simp only [CsvBatchIterator.next]
    rw [hd1]
    dsimp only
    rw [csvDecodeChunk_malformed_head schema _ r2 rest hd2]
    simp
  · simp only [CsvBatchIterator.next]
    rw [hd2]
    simp
  · simp [rowsToBatch, transposeRows]
  · exact decodeFields_some_length schema r1 v1 hd1

theorem C6_csv_failfast_witness :
    List.length sampleSchema3 = 3 ∧
    decodeFields sampleSchema3 ["1", "2", "u"] = some [.vInt 1, .vInt 2, .vStr "u"] ∧
    List.length ["3", "4"] = 2 ∧
    (({ schema := sampleSchema3, batchSize := 4, rows := ["1", "2", "u"] :: ["3", "4"] :: [],
        rowIndex := 0, failed := false } : CsvBatchIterator).next =
      (NextResult.batch (rowsToBatch sampleSchema3 [[.vInt 1, .vInt 2, .vStr "u"]]),
       { schema := sampleSchema3, batchSize := 4, rows := ["3", "4"] :: [],
         rowIndex := 1, failed := false }) ∧
     ({ schema := sampleSchema3, batchSize := 4, rows := ["3", "4"] :: [],
        rowIndex := 1, failed := false } : CsvBatchIterator).next =
      (NextResult.failed (.decodeError 1),
       { schema := sampleSchema3, batchSize := 4, rows := ["3", "4"] :: [],
         rowIndex := 1, failed := true }) ∧
     (rowsToBatch sampleSchema3 [[.vInt 1, .vInt 2, .vStr "u"]]).numRows = 1 ∧
     (rowsToBatch sampleSchema3 [[.vInt 1, .vInt 2, .vStr "u"]]).columns.length =
       List.length sampleSchema3 ∧
     List.length ([.vInt 1, .vInt 2, .vStr "u"] : List Value) = List.length sampleSchema3) :=
  ⟨by decide, by decide, by decide,
   C6_csv_failfast sampleSchema3 4 ["1", "2", "u"] ["3", "4"] []
     [.vInt 1, .vInt 2, .vStr "u"] (by decide) (by decide) (by decide)⟩

theorem C5_eos_idempotent_witness :
    MemBatchIterator.next { schema := sampleSchema2, batches := [] } =
      (NextResult.endOfStream, { schema := sampleSchema2, batches := [] }) ∧
    ({ schema := sampleSchema2, batches := [] } : MemBatchIterator) =
      { schema := sampleSchema2, batches := [] } ∧
    MemBatchIterator.next { schema := sampleSchema2, batches := [] } =
      (NextResult.endOfStream, { schema := sampleSchema2, batches := [] }) :=
  ⟨by decide, C5_eos_idempotent.1 _ _ (by decide)⟩

end Datasource
